import Mathlib

/-!
Shallow embedding of the customer-segmentation batch pipeline
(`pipeline/feature_engineering.py`, `inference/batch_predictor.py`,
`app.py`) and proofs of the specification claims about it.

Modelling conventions:
* a pandas DataFrame of transactions is a `List Row`; the `TotalPrice`
  column, which exists only after `clean_data` adds it, is an
  `Option ℚ` field (`none` = column absent / NaN);
* timestamps (`InvoiceDate`) are integers counting seconds;
  `pd.Timedelta(days=1)` is `DAY = 86400` seconds and `Timedelta.days`
  is flooring division by `DAY` (`Int.fdiv`);
* decimals (`UnitPrice`, `TotalPrice`, `Monetary`) are `ℚ`;
* `CustomerID` is `Option Int` (`none` = missing / NaN).
-/

set_option maxRecDepth 4096

/-- Marker character for cancelled invoices (`str.startswith("C")` in
`clean_data`). -/
def cancelMarker : String := "C"

/-- One second-granularity day, the model of `pd.Timedelta(days=1)`. -/
def DAY : Int := 86400

/-- A raw transaction row (one row of the uploaded DataFrame).
`totalPrice` is the `TotalPrice` column: `none` until `clean_data`
assigns it. -/
structure Row where
  invoiceNo : String
  stockCode : String
  description : String
  quantity : Int
  invoiceDate : Int
  unitPrice : ℚ
  customerID : Option Int
  totalPrice : Option ℚ
deriving DecidableEq, Repr

/-- Embedding of `clean_data` (pipeline/feature_engineering.py, lines
4-28): (1) drop rows with missing CustomerID, (2) convert InvoiceDate
(dates are already integers in the model, so the conversion is the
identity map over the column), (3) drop rows whose InvoiceNo as a
string starts with the cancellation marker, (4) keep rows with
positive Quantity and UnitPrice, (5) assign the TotalPrice column. -/
def clean_data (df : List Row) : List Row :=
  let d1 := df.filter (fun r => r.customerID.isSome)
  let d2 := d1.map (fun r => { r with invoiceDate := r.invoiceDate })
  let d3 := d2.filter (fun r => !(r.invoiceNo.startsWith cancelMarker))
  let d4 := d3.filter (fun r => decide (0 < r.quantity) && decide (0 < r.unitPrice))
  d4.map (fun r => { r with totalPrice := some ((r.quantity : ℚ) * r.unitPrice) })

lemma clean_data_eq (df : List Row) :
    clean_data df =
      (((df.filter (fun r => r.customerID.isSome)).filter
          (fun r => !(r.invoiceNo.startsWith cancelMarker))).filter
          (fun r => decide (0 < r.quantity) && decide (0 < r.unitPrice))).map
        (fun r => { r with totalPrice := some ((r.quantity : ℚ) * r.unitPrice) }) := by
  have hid : (fun r : Row => { r with invoiceDate := r.invoiceDate }) = fun r => r := rfl
  simp only [clean_data, hid, List.map_id']

lemma mem_clean_data (df : List Row) (r : Row) (h : r ∈ clean_data df) :
    0 < r.quantity ∧ 0 < r.unitPrice ∧ r.customerID.isSome ∧
      ¬ r.invoiceNo.startsWith cancelMarker ∧
      r.totalPrice = some ((r.quantity : ℚ) * r.unitPrice) := by
  rw [clean_data_eq] at h
  rcases List.mem_map.mp h with ⟨s, hs, rfl⟩
  rcases List.mem_filter.mp hs with ⟨hs3, hqp⟩
  rcases List.mem_filter.mp hs3 with ⟨hs1, hcanc⟩
  rcases List.mem_filter.mp hs1 with ⟨-, hcid⟩
  simp only [Bool.and_eq_true, decide_eq_true_eq] at hqp
  simp only [Bool.not_eq_true', Bool.not_eq_true] at hcanc
  refine ⟨hqp.1, hqp.2, hcid, ?_, rfl⟩
  simp [hcanc]

/-- Claim C1: every row of `clean_data`'s output has positive Quantity,
positive UnitPrice, a present CustomerID, an InvoiceNo whose string
form does not start with the cancellation marker, and a TotalPrice
equal to Quantity * UnitPrice exactly. -/
theorem clean_data_invariants (df : List Row) (r : Row) (h : r ∈ clean_data df) :
    0 < r.quantity ∧ 0 < r.unitPrice ∧ r.customerID.isSome ∧
      ¬ r.invoiceNo.startsWith cancelMarker ∧
      r.totalPrice = some ((r.quantity : ℚ) * r.unitPrice) :=
  mem_clean_data df r h

/-- A sample raw row that survives every cleaning filter. -/
def sampleRow1 : Row :=
  { invoiceNo := "1", stockCode := "A", description := "M",
    quantity := 2, invoiceDate := 0, unitPrice := 5,
    customerID := some 1, totalPrice := none }

/-- The cleaned form of `sampleRow1`. -/
def sampleClean1 : Row := { sampleRow1 with totalPrice := some 10 }

theorem clean_data_invariants_witness :
    sampleClean1 ∈ clean_data [sampleRow1] ∧
      (0 < sampleClean1.quantity ∧ 0 < sampleClean1.unitPrice ∧
        sampleClean1.customerID.isSome ∧
        ¬ sampleClean1.invoiceNo.startsWith cancelMarker ∧
        sampleClean1.totalPrice =
          some ((sampleClean1.quantity : ℚ) * sampleClean1.unitPrice)) :=
  ⟨by with_unfolding_all decide,
    clean_data_invariants [sampleRow1] sampleClean1 (by with_unfolding_all decide)⟩

/-!
Heap model for the mutation behaviour of `clean_data` (claim C9).
A pandas session heap maps object references (allocation order) to
DataFrame objects. `df.copy()`, `df.dropna(...)` and boolean-mask
selection allocate new objects, while column assignment
(`df["InvoiceDate"] = ...`, `df["TotalPrice"] = ...`) mutates the
referenced object in place.
-/

/-- The heap of DataFrame objects live in a pandas session: `mem`
stores the table of each reference, `next` is the next fresh
reference. -/
structure PdHeap where
  mem : Nat → List Row
  next : Nat

/-- Dereference: the table stored at reference `r`. -/
def PdHeap.get (h : PdHeap) (r : Nat) : List Row := h.mem r

/-- Allocate a fresh DataFrame object holding table `t` at reference
`h.next`. -/
def PdHeap.alloc (h : PdHeap) (t : List Row) : PdHeap :=
  ⟨fun i => if i = h.next then t else h.mem i, h.next + 1⟩

/-- In-place mutation of the object at reference `r`. -/
def PdHeap.set (h : PdHeap) (r : Nat) (t : List Row) : PdHeap :=
  ⟨fun i => if i = r then t else h.mem i, h.next⟩

/-- Re-assigning the InvoiceDate column with its parsed form is the
identity on the model, where dates are already integers. -/
lemma map_invoiceDate_id (l : List Row) :
    l.map (fun r => { r with invoiceDate := r.invoiceDate }) = l := by
  have hid : (fun r : Row => { r with invoiceDate := r.invoiceDate }) = fun r => r := rfl
  rw [hid, List.map_id']

/-- Statement-level embedding of `clean_data` over the object heap
(pipeline/feature_engineering.py, lines 8-28). `df = df.copy()`
allocates; each filtering step allocates a new frame and rebinds the
local `df`; the two column assignments mutate the current object in
place. Returns the final heap and the reference `df` holds at
`return df`. -/
def clean_data_prog (h0 : PdHeap) (df : Nat) : PdHeap × Nat :=
  let r1 := h0.next
  let h1 := h0.alloc (h0.get df)
  let r2 := h1.next
  let h2 := h1.alloc ((h1.get r1).filter (fun r => r.customerID.isSome))
  let h3 := h2.set r2 ((h2.get r2).map (fun r => { r with invoiceDate := r.invoiceDate }))
  let r3 := h3.next
  let h4 := h3.alloc ((h3.get r2).filter (fun r => !(r.invoiceNo.startsWith cancelMarker)))
  let r4 := h4.next
  let h5 := h4.alloc ((h4.get r3).filter (fun r => decide (0 < r.quantity) && decide (0 < r.unitPrice)))
  let h6 := h5.set r4 ((h5.get r4).map (fun r => { r with totalPrice := some ((r.quantity : ℚ) * r.unitPrice) }))
  (h6, r4)

/-- Claim C9: `clean_data` does not mutate the caller's table — after
the statements of `clean_data` run, the object the caller passed in
still holds its original rows (every filter and both column
assignments act on the copy) — and the returned object holds exactly
the rows of the pure function `clean_data`. -/
theorem clean_data_prog_frame (h0 : PdHeap) (df : Nat) (hdf : df < h0.next) :
    (clean_data_prog h0 df).1.get df = h0.get df ∧
      (clean_data_prog h0 df).1.get (clean_data_prog h0 df).2 = clean_data (h0.get df) := by
  have e0 : df ≠ h0.next := by omega
  have e1 : df ≠ h0.next + 1 := by omega
  have e2 : df ≠ h0.next + 1 + 1 := by omega
  have e3 : df ≠ h0.next + 1 + 1 + 1 := by omega
  constructor
  · simp [clean_data_prog, PdHeap.get, PdHeap.alloc, PdHeap.set, e0, e1, e2, e3]
  · rw [clean_data_eq]
    simp [clean_data_prog, PdHeap.get, PdHeap.alloc, PdHeap.set, map_invoiceDate_id]

/-- A one-object heap holding the sample row at reference 0. -/
def sampleHeap : PdHeap := ⟨fun _ => [sampleRow1], 1⟩

theorem clean_data_prog_frame_witness :
    0 < sampleHeap.next ∧
      ((clean_data_prog sampleHeap 0).1.get 0 = sampleHeap.get 0 ∧
        (clean_data_prog sampleHeap 0).1.get (clean_data_prog sampleHeap 0).2 =
          clean_data (sampleHeap.get 0)) :=
  ⟨by decide, clean_data_prog_frame sampleHeap 0 (by decide)⟩

/-- A raw row with a missing CustomerID: step 1 of cleaning removes
it, so cleaning this one-row table removes every row. -/
def sampleRowNoCustomer : Row :=
  { invoiceNo := "2", stockCode := "A", description := "M",
    quantity := 1, invoiceDate := 0, unitPrice := 1,
    customerID := none, totalPrice := none }

/-- Counterexample to claim C6: on an input whose rows are all removed
by cleaning, `clean_data` simply returns the empty table — it does not
signal any error (no `EmptyResultError` exists anywhere in the code,
and `clean_data` has no emptiness check). -/
theorem clean_data_empty_counterexample :
    clean_data [sampleRowNoCustomer] = [] := by
  with_unfolding_all decide

/-- Claim C6 amended: when the cleaning steps remove every row,
`clean_data` returns the empty sequence and signals nothing; the
undefined downstream snapshot-date computation is not guarded. -/
theorem clean_data_all_removed (df : List Row)
    (hall : ∀ r ∈ df, r.customerID = none ∨ r.invoiceNo.startsWith cancelMarker ∨
      r.quantity ≤ 0 ∨ r.unitPrice ≤ 0) :
    clean_data df = [] := by
  rw [clean_data_eq, List.map_eq_nil_iff, List.filter_eq_nil_iff]
  intro a ha
  rcases List.mem_filter.mp ha with ⟨ha1, hcanc⟩
  rcases List.mem_filter.mp ha1 with ⟨hadf, hcid⟩
  rcases hall a hadf with h | h | h | h
  · rw [h] at hcid
    simp at hcid
  · simp [h] at hcanc
  · simp [not_lt.mpr h]
  · simp [not_lt.mpr h]

theorem clean_data_all_removed_witness :
    (∀ r ∈ [sampleRowNoCustomer], r.customerID = none ∨
        r.invoiceNo.startsWith cancelMarker ∨ r.quantity ≤ 0 ∨ r.unitPrice ≤ 0) ∧
      clean_data [sampleRowNoCustomer] = [] :=
  ⟨by decide, clean_data_all_removed [sampleRowNoCustomer] (by decide)⟩

/-!
Embedding of `build_rfm_features` (pipeline/feature_engineering.py,
lines 30-57). `groupby("CustomerID")` groups rows by their (present)
CustomerID and iterates the distinct keys in ascending order; the two
aggregations are merged with a left join on CustomerID, whose
right-hand fields are `Option`-valued (`none` = NaN for an unmatched
key).
-/

/-- Insert into an ascending list. -/
def insertAsc (x : Int) : List Int → List Int
  | [] => [x]
  | y :: ys => if x ≤ y then x :: y :: ys else y :: insertAsc x ys

/-- Ascending insertion sort, the model of the ascending key order of
`groupby`. -/
def sortAsc : List Int → List Int
  | [] => []
  | x :: xs => insertAsc x (sortAsc xs)

lemma mem_insertAsc {x a : Int} {l : List Int} : a ∈ insertAsc x l ↔ a = x ∨ a ∈ l := by
  induction l with
  | nil => simp [insertAsc]
  | cons y ys ih =>
    by_cases h : x ≤ y
    · simp [insertAsc, h]
    · simp [insertAsc, h, ih]
      tauto

lemma mem_sortAsc {a : Int} {l : List Int} : a ∈ sortAsc l ↔ a ∈ l := by
  induction l with
  | nil => simp [sortAsc]
  | cons x xs ih => simp [sortAsc, mem_insertAsc, ih]

lemma nodup_insertAsc {x : Int} {l : List Int} (hx : x ∉ l) (h : l.Nodup) :
    (insertAsc x l).Nodup := by
  induction l with
  | nil => simp [insertAsc]
  | cons y ys ih =>
    rcases List.nodup_cons.mp h with ⟨hy, hys⟩
    by_cases hxy : x ≤ y
    · simp only [insertAsc, if_pos hxy, List.nodup_cons]
      exact ⟨fun hm => hx (by simpa using hm), hy, hys⟩
    · simp only [insertAsc, if_neg hxy, List.nodup_cons, mem_insertAsc]
      constructor
      · rintro (rfl | hyy)
        · exact hxy le_rfl
        · exact hy hyy
      · exact ih (fun hmem => hx (List.mem_cons_of_mem y hmem)) hys

lemma nodup_sortAsc {l : List Int} (h : l.Nodup) : (sortAsc l).Nodup := by
  induction l with
  | nil => simp [sortAsc]
  | cons x xs ih =>
    rcases List.nodup_cons.mp h with ⟨hx, hxs⟩
    exact nodup_insertAsc (fun hmem => hx (mem_sortAsc.mp hmem)) (ih hxs)

/-- Model of `series.max()` on an integer column: the maximum of a
nonempty list (0, an unused junk value, on the empty list, where
pandas would give NaT/NaN). -/
def listMaxInt : List Int → Int
  | [] => 0
  | x :: xs => xs.foldl max x

lemma le_foldl_max (a : Int) (l : List Int) : a ≤ l.foldl max a := by
  induction l generalizing a with
  | nil => exact le_rfl
  | cons b l ih => exact le_trans (le_max_left a b) (ih (max a b))

lemma foldl_max_le_of_mem {x : Int} {l : List Int} (h : x ∈ l) (a : Int) :
    x ≤ l.foldl max a := by
  induction l generalizing a with
  | nil => cases h
  | cons b l ih =>
    rcases List.mem_cons.mp h with rfl | h'
    · exact le_trans (le_max_right a x) (le_foldl_max _ l)
    · exact ih h' (max a b)

lemma foldl_max_mem (l : List Int) (a : Int) : l.foldl max a = a ∨ l.foldl max a ∈ l := by
  induction l generalizing a with
  | nil => exact Or.inl rfl
  | cons b l ih =>
    rcases ih (max a b) with h | h
    · rcases max_choice a b with hm | hm
      · exact Or.inl (by rw [List.foldl_cons, h, hm])
      · exact Or.inr (by rw [List.foldl_cons, h, hm]; exact List.mem_cons_self b l)
    · exact Or.inr (List.mem_cons_of_mem b h)

lemma le_listMaxInt {x : Int} {l : List Int} (h : x ∈ l) : x ≤ listMaxInt l := by
  cases l with
  | nil => cases h
  | cons y ys =>
    rcases List.mem_cons.mp h with rfl | h'
    · exact le_foldl_max x ys
    · exact foldl_max_le_of_mem h' y

lemma listMaxInt_mem {l : List Int} (h : l ≠ []) : listMaxInt l ∈ l := by
  cases l with
  | nil => exact absurd rfl h
  | cons y ys =>
    rcases foldl_max_mem ys y with h' | h'
    · rw [listMaxInt, h']
      exact List.mem_cons_self y ys
    · exact List.mem_cons_of_mem y h'

/-- The distinct present CustomerIDs of a table, in the ascending
order `groupby("CustomerID")` iterates them (NaN keys dropped). -/
def customersOf (df : List Row) : List Int :=
  sortAsc (df.filterMap (fun r => r.customerID)).dedup

/-- The rows of a single customer's group. -/
def groupOf (df : List Row) (c : Int) : List Row :=
  df.filter (fun r => decide (r.customerID = some c))

/-- The snapshot date: `df["InvoiceDate"].max() + pd.Timedelta(days=1)`. -/
def snapshot_date (df : List Row) : Int :=
  listMaxInt (df.map (fun r => r.invoiceDate)) + DAY

/-- One row of the RFM aggregation (`rfm` in the source). -/
structure RfmRow where
  customerID : Int
  recency : Int
  frequency : Nat
  monetary : ℚ
deriving DecidableEq, Repr

/-- One row of the behavioral aggregation (`behavior` in the source). -/
structure BehRow where
  customerID : Int
  totalQuantity : Int
  uniqueProducts : Nat
deriving DecidableEq, Repr

/-- One row of the merged customer-feature table. The right-hand join
fields are `Option`-valued because a left join leaves them NaN when no
behavioral row matches. -/
structure FeatureRow where
  customerID : Int
  recency : Int
  frequency : Nat
  monetary : ℚ
  totalQuantity : Option Int
  uniqueProducts : Option Nat
deriving DecidableEq, Repr

/-- The RFM aggregate of one customer group: Recency is
`(snapshot_date - x.max()).days`, Frequency is `nunique` of InvoiceNo,
Monetary is the sum of TotalPrice. -/
def mkRfm (df : List Row) (c : Int) : RfmRow :=
  let g := groupOf df c
  { customerID := c,
    recency := (snapshot_date df - listMaxInt (g.map (fun r => r.invoiceDate))).fdiv DAY,
    frequency := (g.map (fun r => r.invoiceNo)).dedup.length,
    monetary := (g.map (fun r => r.totalPrice.getD 0)).sum }

/-- The `rfm` DataFrame: one RFM row per distinct CustomerID. -/
def rfm_agg (df : List Row) : List RfmRow :=
  (customersOf df).map (mkRfm df)

/-- The behavioral aggregate of one customer group: TotalQuantity is
the sum of Quantity, UniqueProducts is `nunique` of StockCode. -/
def mkBeh (df : List Row) (c : Int) : BehRow :=
  let g := groupOf df c
  { customerID := c,
    totalQuantity := (g.map (fun r => r.quantity)).sum,
    uniqueProducts := (g.map (fun r => r.stockCode)).dedup.length }

/-- The `behavior` DataFrame: one behavioral row per distinct
CustomerID. -/
def behavior_agg (df : List Row) : List BehRow :=
  (customersOf df).map (mkBeh df)

/-- Embedding of `build_rfm_features`: the two aggregations merged by
`rfm.merge(behavior, on="CustomerID", how="left")` — for each RFM row,
every matching behavioral row produces an output row, and an
unmatched RFM row survives with NaN join fields. -/
def build_rfm_features (df : List Row) : List FeatureRow :=
  let rfm := rfm_agg df
  let behavior := behavior_agg df
  rfm.flatMap (fun r =>
    match behavior.filter (fun b => decide (b.customerID = r.customerID)) with
    | [] => [{ customerID := r.customerID, recency := r.recency, frequency := r.frequency,
               monetary := r.monetary, totalQuantity := none, uniqueProducts := none }]
    | bs => bs.map (fun b =>
        { customerID := r.customerID, recency := r.recency, frequency := r.frequency,
          monetary := r.monetary, totalQuantity := some b.totalQuantity,
          uniqueProducts := some b.uniqueProducts }))

/-- The merged feature row of one customer: its RFM fields joined with
its behavioral fields. -/
def featureRowOf (df : List Row) (c : Int) : FeatureRow :=
  { customerID := c,
    recency := (mkRfm df c).recency,
    frequency := (mkRfm df c).frequency,
    monetary := (mkRfm df c).monetary,
    totalQuantity := some (mkBeh df c).totalQuantity,
    uniqueProducts := some (mkBeh df c).uniqueProducts }

lemma mem_customersOf {df : List Row} {c : Int} :
    c ∈ customersOf df ↔ ∃ r ∈ df, r.customerID = some c := by
  simp [customersOf, mem_sortAsc, List.mem_dedup, List.mem_filterMap]

lemma nodup_customersOf (df : List Row) : (customersOf df).Nodup :=
  nodup_sortAsc (List.nodup_dedup _)

lemma filter_key_of_map {β : Type} {l : List Int} (hnd : l.Nodup) (f : Int → β)
    (key : β → Int) (hk : ∀ x, key (f x) = x) {c : Int} (hc : c ∈ l) :
    (l.map f).filter (fun b => decide (key b = c)) = [f c] := by
  induction l with
  | nil => cases hc
  | cons a l ih =>
    rcases List.nodup_cons.mp hnd with ⟨ha, hl⟩
    rw [List.map_cons, List.filter_cons]
    rcases List.mem_cons.mp hc with rfl | hc'
    · rw [if_pos (by simp [hk])]
      have htail : (l.map f).filter (fun b => decide (key b = c)) = [] := by
        rw [List.filter_eq_nil_iff]
        intro b hb
        rcases List.mem_map.mp hb with ⟨x, hx, rfl⟩
        simp only [hk, decide_eq_true_eq]
        exact fun h => ha (h ▸ hx)
      rw [htail]
    · have hac : a ≠ c := fun h => ha (h ▸ hc')
      rw [if_neg (by simp [hk, hac])]
      exact ih hl hc'

lemma behavior_filter_eq (df : List Row) {c : Int} (hc : c ∈ customersOf df) :
    (behavior_agg df).filter (fun b => decide (b.customerID = c)) = [mkBeh df c] :=
  filter_key_of_map (nodup_customersOf df) (mkBeh df) (fun b => b.customerID)
    (fun _ => rfl) hc

/-- Normal form of the merged table: exactly one feature row per
distinct CustomerID, because the left join always finds exactly one
behavioral row (both aggregations group the same rows by the same
key). -/
lemma build_rfm_eq_map (df : List Row) :
    build_rfm_features df = (customersOf df).map (featureRowOf df) := by
  show (rfm_agg df).flatMap _ = _
  rw [rfm_agg]
  suffices h : ∀ l : List Int, (∀ c ∈ l, c ∈ customersOf df) →
      (l.map (mkRfm df)).flatMap (fun r =>
        match (behavior_agg df).filter (fun b => decide (b.customerID = r.customerID)) with
        | [] => [{ customerID := r.customerID, recency := r.recency, frequency := r.frequency,
                   monetary := r.monetary, totalQuantity := none, uniqueProducts := none }]
        | bs => bs.map (fun b =>
            { customerID := r.customerID, recency := r.recency, frequency := r.frequency,
              monetary := r.monetary, totalQuantity := some b.totalQuantity,
              uniqueProducts := some b.uniqueProducts })) = l.map (featureRowOf df) by
    exact h (customersOf df) (fun c hc => hc)
  intro l hl
  induction l with
  | nil => rfl
  | cons c l ih =>
    rw [List.map_cons, List.flatMap_cons, List.map_cons]
    have hc : c ∈ customersOf df := hl c (List.mem_cons_self c l)
    have hfilter : (behavior_agg df).filter
        (fun b => decide (b.customerID = (mkRfm df c).customerID)) = [mkBeh df c] :=
      behavior_filter_eq df hc
    rw [hfilter, ih (fun x hx => hl x (List.mem_cons_of_mem c hx))]
    rfl

lemma mem_groupOf {df : List Row} {c : Int} {r : Row} :
    r ∈ groupOf df c ↔ r ∈ df ∧ r.customerID = some c := by
  simp [groupOf]

lemma groupOf_ne_nil {df : List Row} {c : Int} (hc : c ∈ customersOf df) :
    groupOf df c ≠ [] := by
  rcases mem_customersOf.mp hc with ⟨r, hr, hcid⟩
  exact List.ne_nil_of_mem (mem_groupOf.mpr ⟨hr, hcid⟩)

lemma groupMax_le_max {df : List Row} {c : Int} (hc : c ∈ customersOf df) :
    listMaxInt ((groupOf df c).map (fun r => r.invoiceDate)) ≤
      listMaxInt (df.map (fun r => r.invoiceDate)) := by
  have hne : (groupOf df c).map (fun r => r.invoiceDate) ≠ [] :=
    fun hnil => groupOf_ne_nil hc (List.map_eq_nil_iff.mp hnil)
  rcases List.mem_map.mp (listMaxInt_mem hne) with ⟨r, hr, heq⟩
  rw [← heq]
  exact le_listMaxInt (List.mem_map_of_mem _ (mem_groupOf.mp hr).1)

/-- Claim C7: CustomerID is a unique key of the customer-feature
table: no two output rows of `build_rfm_features` share a CustomerID. -/
theorem build_rfm_customerID_unique (df : List Row) :
    ((build_rfm_features df).map (fun f => f.customerID)).Nodup := by
  rw [build_rfm_eq_map, List.map_map]
  have hcomp : ((fun f : FeatureRow => f.customerID) ∘ featureRowOf df) = fun c => c := rfl
  rw [hcomp, List.map_id']
  exact nodup_customersOf df

/-- Claim C4: every customer row of `build_rfm_features` has
`Recency >= 1` (snapshot = max InvoiceDate + 1 day), and a customer
whose last purchase is exactly at the maximum date gets Recency = 1. -/
theorem build_rfm_recency_ge_one (df : List Row) (f : FeatureRow)
    (h : f ∈ build_rfm_features df) :
    1 ≤ f.recency ∧
      (listMaxInt ((groupOf df f.customerID).map (fun r => r.invoiceDate)) =
          listMaxInt (df.map (fun r => r.invoiceDate)) → f.recency = 1) := by
  rw [build_rfm_eq_map] at h
  rcases List.mem_map.mp h with ⟨c, hc, rfl⟩
  have hle := groupMax_le_max hc
  have hday : (0 : Int) < DAY := by decide
  have hsnap : snapshot_date df = listMaxInt (df.map (fun r => r.invoiceDate)) + DAY := rfl
  constructor
  · show 1 ≤ (snapshot_date df -
      listMaxInt ((groupOf df c).map (fun r => r.invoiceDate))).fdiv DAY
    rw [Int.fdiv_eq_ediv _ hday.le, Int.le_ediv_iff_mul_le hday, one_mul, hsnap]
    omega
  · show listMaxInt ((groupOf df c).map (fun r => r.invoiceDate)) =
        listMaxInt (df.map (fun r => r.invoiceDate)) →
      (snapshot_date df -
        listMaxInt ((groupOf df c).map (fun r => r.invoiceDate))).fdiv DAY = 1
    intro heq
    rw [heq, hsnap]
    have hd : listMaxInt (df.map (fun r => r.invoiceDate)) + DAY -
        listMaxInt (df.map (fun r => r.invoiceDate)) = DAY := by omega
    rw [hd]
    decide

/-- The feature row computed for the single sample customer. -/
def sampleFeature1 : FeatureRow :=
  { customerID := 1, recency := 1, frequency := 1, monetary := 10,
    totalQuantity := some 2, uniqueProducts := some 1 }

theorem build_rfm_recency_ge_one_witness :
    sampleFeature1 ∈ build_rfm_features [sampleClean1] ∧
      (1 ≤ sampleFeature1.recency ∧
        (listMaxInt ((groupOf [sampleClean1] sampleFeature1.customerID).map
              (fun r => r.invoiceDate)) =
            listMaxInt (([sampleClean1]).map (fun r => r.invoiceDate)) →
          sampleFeature1.recency = 1)) :=
  ⟨by with_unfolding_all decide,
    build_rfm_recency_ge_one [sampleClean1] sampleFeature1 (by with_unfolding_all decide)⟩

/-- Claim C10: on a cleaned table, every customer-feature row has
strictly positive aggregates — Monetary > 0, Frequency >= 1 — and the
left join always fills the behavioral fields: TotalQuantity is present
and >= 1, UniqueProducts is present and >= 1. -/
theorem build_rfm_positive_aggregates (raw : List Row) (f : FeatureRow)
    (h : f ∈ build_rfm_features (clean_data raw)) :
    0 < f.monetary ∧ 1 ≤ f.frequency ∧
      (∃ q, f.totalQuantity = some q ∧ 1 ≤ q) ∧
      (∃ u, f.uniqueProducts = some u ∧ 1 ≤ u) := by
  rw [build_rfm_eq_map] at h
  rcases List.mem_map.mp h with ⟨c, hc, rfl⟩
  have hg : groupOf (clean_data raw) c ≠ [] := groupOf_ne_nil hc
  have hsub : ∀ r ∈ groupOf (clean_data raw) c, r ∈ clean_data raw :=
    fun r hr => (mem_groupOf.mp hr).1
  refine ⟨?_, ?_, ?_, ?_⟩
  · show 0 < ((groupOf (clean_data raw) c).map (fun r => r.totalPrice.getD 0)).sum
    apply List.sum_pos
    · intro x hx
      rcases List.mem_map.mp hx with ⟨r, hr, rfl⟩
      obtain ⟨hq, hu, -, -, htp⟩ := mem_clean_data raw r (hsub r hr)
      rw [htp]
      show 0 < (r.quantity : ℚ) * r.unitPrice
      exact mul_pos (by exact_mod_cast hq) hu
    · exact fun hnil => hg (List.map_eq_nil_iff.mp hnil)
  · show 1 ≤ ((groupOf (clean_data raw) c).map (fun r => r.invoiceNo)).dedup.length
    obtain ⟨r, hr⟩ := List.exists_mem_of_ne_nil _ hg
    exact List.length_pos.mpr
      (List.ne_nil_of_mem (List.mem_dedup.mpr (List.mem_map_of_mem _ hr)))
  · refine ⟨(mkBeh (clean_data raw) c).totalQuantity, rfl, ?_⟩
    show 1 ≤ ((groupOf (clean_data raw) c).map (fun r => r.quantity)).sum
    have hpos : 0 < ((groupOf (clean_data raw) c).map (fun r => r.quantity)).sum := by
      apply List.sum_pos
      · intro x hx
        rcases List.mem_map.mp hx with ⟨r, hr, rfl⟩
        exact (mem_clean_data raw r (hsub r hr)).1
      · exact fun hnil => hg (List.map_eq_nil_iff.mp hnil)
    omega
  · refine ⟨(mkBeh (clean_data raw) c).uniqueProducts, rfl, ?_⟩
    show 1 ≤ ((groupOf (clean_data raw) c).map (fun r => r.stockCode)).dedup.length
    obtain ⟨r, hr⟩ := List.exists_mem_of_ne_nil _ hg
    exact List.length_pos.mpr
      (List.ne_nil_of_mem (List.mem_dedup.mpr (List.mem_map_of_mem _ hr)))

theorem build_rfm_positive_aggregates_witness :
    sampleFeature1 ∈ build_rfm_features (clean_data [sampleRow1]) ∧
      (0 < sampleFeature1.monetary ∧ 1 ≤ sampleFeature1.frequency ∧
        (∃ q, sampleFeature1.totalQuantity = some q ∧ 1 ≤ q) ∧
        (∃ u, sampleFeature1.uniqueProducts = some u ∧ 1 ≤ u)) :=
  ⟨by with_unfolding_all decide,
    build_rfm_positive_aggregates [sampleRow1] sampleFeature1 (by with_unfolding_all decide)⟩

/-!
Embedding of `get_segment_labels` (app.py, lines 144-169). The input
is the prediction result table; only the columns the function touches
(Cluster, Monetary, Recency, Frequency) are modelled.
`df.groupby("Cluster").agg("mean")` produces one stats row per
distinct cluster, keys ascending; `sort_values(..., ascending=False).iloc[0]`
picks a row with the extreme key value (`none` models the IndexError
pandas raises for `iloc[0]` on an empty frame; on ties pandas' unstable
default sort leaves the pick unspecified, and the model picks the
first extreme row in key order).
-/

/-- A row of the result table passed to `get_segment_labels`. -/
structure ResultRow where
  cluster : Int
  monetary : ℚ
  recency : ℚ
  frequency : ℚ
deriving DecidableEq, Repr

/-- The distinct Cluster values of the result table, ascending (the
`groupby("Cluster")` key order). -/
def clustersOf (results : List ResultRow) : List Int :=
  sortAsc (results.map (fun r => r.cluster)).dedup

/-- The per-cluster mean of one column. -/
def clusterMean (results : List ResultRow) (col : ResultRow → ℚ) (c : Int) : ℚ :=
  let g := results.filter (fun r => decide (r.cluster = c))
  (g.map col).sum / g.length

/-- One row of `cluster_stats`: a cluster and its per-cluster means. -/
structure ClusterStat where
  cluster : Int
  monetary : ℚ
  recency : ℚ
  frequency : ℚ
deriving DecidableEq, Repr

/-- The stats row of one cluster. -/
def segStat (results : List ResultRow) (c : Int) : ClusterStat :=
  { cluster := c,
    monetary := clusterMean results (fun r => r.monetary) c,
    recency := clusterMean results (fun r => r.recency) c,
    frequency := clusterMean results (fun r => r.frequency) c }

/-- The `cluster_stats` frame: one stats row per distinct cluster. -/
def cluster_stats (results : List ResultRow) : List ClusterStat :=
  (clustersOf results).map (segStat results)

/-- Model of `frame.sort_values(key, ascending=False).iloc[0]`: the
first row carrying the maximal key (none = IndexError on an empty
frame). -/
def sortHeadDesc (key : ClusterStat → ℚ) : List ClusterStat → Option ClusterStat
  | [] => none
  | x :: xs =>
    match sortHeadDesc key xs with
    | none => some x
    | some b => if key x < key b then some b else some x

/-- Model of `frame.sort_values(key, ascending=True).iloc[0]`: the
first row carrying the minimal key. -/
def sortHeadAsc (key : ClusterStat → ℚ) : List ClusterStat → Option ClusterStat
  | [] => none
  | x :: xs =>
    match sortHeadAsc key xs with
    | none => some x
    | some b => if key b < key x then some b else some x

/-- Business label of the highest-Monetary cluster. -/
def labelHighValue : String := "💎 High-Value Loyal"

/-- Business label of the highest-Recency remaining cluster. -/
def labelAtRisk : String := "⚠️ At-Risk / Churning"

/-- Business label of the lowest-Recency remaining cluster. -/
def labelRecent : String := "🌱 Recent Low Spenders"

/-- Business label of the final remaining cluster. -/
def labelBulk : String := "🛒 Bulk/Average Buyers"

/-- Embedding of `get_segment_labels`: greedy label assignment with
elimination over `cluster_stats`; the returned association list is the
`labels` dict in insertion order. `none` models the IndexError raised
by `.iloc[0]` on an empty remaining pool (the fourth step alone is
guarded by `if not remaining.empty`). -/
def get_segment_labels (results : List ResultRow) : Option (List (Int × String)) :=
  let stats := cluster_stats results
  match sortHeadDesc (fun s => s.monetary) stats with
  | none => none
  | some loyal =>
    let rem1 := stats.filter (fun s => decide (s.cluster ≠ loyal.cluster))
    match sortHeadDesc (fun s => s.recency) rem1 with
    | none => none
    | some atRisk =>
      let rem2 := rem1.filter (fun s => decide (s.cluster ≠ atRisk.cluster))
      match sortHeadAsc (fun s => s.recency) rem2 with
      | none => none
      | some recent =>
        let rem3 := rem2.filter (fun s => decide (s.cluster ≠ recent.cluster))
        let base := [(loyal.cluster, labelHighValue), (atRisk.cluster, labelAtRisk),
                     (recent.cluster, labelRecent)]
        match rem3 with
        | [] => some base
        | bulk :: _ => some (base ++ [(bulk.cluster, labelBulk)])

lemma sortHeadDesc_eq_none {key : ClusterStat → ℚ} {l : List ClusterStat} :
    sortHeadDesc key l = none ↔ l = [] := by
  cases l with
  | nil => simp [sortHeadDesc]
  | cons x xs =>
    simp only [sortHeadDesc]
    cases h : sortHeadDesc key xs with
    | none => simp
    | some b =>
      by_cases hx : key x < key b <;> simp [hx]

lemma sortHeadAsc_eq_none {key : ClusterStat → ℚ} {l : List ClusterStat} :
    sortHeadAsc key l = none ↔ l = [] := by
  cases l with
  | nil => simp [sortHeadAsc]
  | cons x xs =>
    simp only [sortHeadAsc]
    cases h : sortHeadAsc key xs with
    | none => simp
    | some b =>
      by_cases hx : key b < key x <;> simp [hx]

lemma sortHeadDesc_spec {key : ClusterStat → ℚ} {l : List ClusterStat} {b : ClusterStat}
    (h : sortHeadDesc key l = some b) : b ∈ l ∧ ∀ x ∈ l, key x ≤ key b := by
  induction l generalizing b with
  | nil => cases h
  | cons a l ih =>
    rw [sortHeadDesc] at h
    cases hrec : sortHeadDesc key l with
    | none =>
      simp only [hrec] at h
      obtain rfl : a = b := Option.some.inj h
      have hnil : l = [] := sortHeadDesc_eq_none.mp hrec
      subst hnil
      refine ⟨List.mem_cons_self a [], ?_⟩
      intro x hx
      rcases List.mem_cons.mp hx with rfl | hx'
      · exact le_rfl
      · cases hx'
    | some c =>
      simp only [hrec] at h
      obtain ⟨hmem, hmax⟩ := ih hrec
      by_cases hx : key a < key c
      · rw [if_pos hx] at h
        obtain rfl : c = b := Option.some.inj h
        refine ⟨List.mem_cons_of_mem a hmem, ?_⟩
        intro x hx'
        rcases List.mem_cons.mp hx' with rfl | hx''
        · exact hx.le
        · exact hmax x hx''
      · rw [if_neg hx] at h
        obtain rfl : a = b := Option.some.inj h
        refine ⟨List.mem_cons_self a l, ?_⟩
        intro x hx'
        rcases List.mem_cons.mp hx' with rfl | hx''
        · exact le_rfl
        · exact le_trans (hmax x hx'') (not_lt.mp hx)

lemma sortHeadAsc_spec {key : ClusterStat → ℚ} {l : List ClusterStat} {b : ClusterStat}
    (h : sortHeadAsc key l = some b) : b ∈ l ∧ ∀ x ∈ l, key b ≤ key x := by
  induction l generalizing b with
  | nil => cases h
  | cons a l ih =>
    rw [sortHeadAsc] at h
    cases hrec : sortHeadAsc key l with
    | none =>
      simp only [hrec] at h
      obtain rfl : a = b := Option.some.inj h
      have hnil : l = [] := sortHeadAsc_eq_none.mp hrec
      subst hnil
      refine ⟨List.mem_cons_self a [], ?_⟩
      intro x hx
      rcases List.mem_cons.mp hx with rfl | hx'
      · exact le_rfl
      · cases hx'
    | some c =>
      simp only [hrec] at h
      obtain ⟨hmem, hmin⟩ := ih hrec
      by_cases hx : key c < key a
      · rw [if_pos hx] at h
        obtain rfl : c = b := Option.some.inj h
        refine ⟨List.mem_cons_of_mem a hmem, ?_⟩
        intro x hx'
        rcases List.mem_cons.mp hx' with rfl | hx''
        · exact hx.le
        · exact hmin x hx''
      · rw [if_neg hx] at h
        obtain rfl : a = b := Option.some.inj h
        refine ⟨List.mem_cons_self a l, ?_⟩
        intro x hx'
        rcases List.mem_cons.mp hx' with rfl | hx''
        · exact le_rfl
        · exact le_trans (not_lt.mp hx) (hmin x hx'')

lemma length_filter_ne_key {l : List ClusterStat}
    (hnd : (l.map (fun s => s.cluster)).Nodup) {x : ClusterStat} (hx : x ∈ l) :
    l.length = (l.filter (fun y => decide (y.cluster ≠ x.cluster))).length + 1 := by
  induction l with
  | nil => cases hx
  | cons a l ih =>
    rw [List.map_cons, List.nodup_cons] at hnd
    obtain ⟨ha, hl⟩ := hnd
    rw [List.filter_cons]
    rcases List.mem_cons.mp hx with rfl | hx'
    · rw [if_neg (by simp)]
      have hsame : l.filter (fun y => decide (y.cluster ≠ x.cluster)) = l := by
        rw [List.filter_eq_self]
        intro y hy
        simp only [decide_eq_true_eq]
        intro heq
        apply ha
        rw [← heq]
        exact List.mem_map_of_mem (fun s => s.cluster) hy
      rw [hsame, List.length_cons]
    · have hax : a.cluster ≠ x.cluster := by
        intro heq
        apply ha
        rw [heq]
        exact List.mem_map_of_mem (fun s => s.cluster) hx'
      rw [if_pos (by simpa using hax), List.length_cons, List.length_cons, ih hl hx']

lemma nodup_key_filter {l : List ClusterStat}
    (hnd : (l.map (fun s => s.cluster)).Nodup) (p : ClusterStat → Bool) :
    ((l.filter p).map (fun s => s.cluster)).Nodup :=
  hnd.sublist ((List.filter_sublist l).map (fun s => s.cluster))

lemma mem_filter_ne {l : List ClusterStat} {k : Int} {s : ClusterStat} :
    s ∈ l.filter (fun y => decide (y.cluster ≠ k)) ↔ s ∈ l ∧ s.cluster ≠ k := by
  simp [List.mem_filter]

lemma nodup_clustersOf (results : List ResultRow) : (clustersOf results).Nodup :=
  nodup_sortAsc (List.nodup_dedup _)

lemma cluster_stats_keys (results : List ResultRow) :
    (cluster_stats results).map (fun s => s.cluster) = clustersOf results := by
  rw [cluster_stats, List.map_map]
  have hcomp : ((fun s : ClusterStat => s.cluster) ∘ segStat results) = fun c => c := rfl
  rw [hcomp, List.map_id']

lemma mem_cluster_stats {results : List ResultRow} {s : ClusterStat}
    (h : s ∈ cluster_stats results) :
    s.cluster ∈ clustersOf results ∧ s = segStat results s.cluster := by
  rcases List.mem_map.mp h with ⟨c, hc, rfl⟩
  exact ⟨hc, rfl⟩

lemma segStat_mem {results : List ResultRow} {c : Int} (hc : c ∈ clustersOf results) :
    segStat results c ∈ cluster_stats results :=
  List.mem_map_of_mem _ hc

/-- Claim C2: with at least 4 distinct clusters present,
`get_segment_labels` returns a mapping labelling the cluster of
maximal mean Monetary "High-Value Loyal", then the remaining cluster
of maximal mean Recency "At-Risk/Churning", then the remaining cluster
of minimal mean Recency "Recent Low Spenders", then a still-remaining
cluster "Bulk/Average Buyers"; all keys are distinct clusters of the
input and the four labels are distinct. -/
theorem get_segment_labels_four (results : List ResultRow)
    (h4 : 4 ≤ (clustersOf results).length) :
    ∃ cL cA cR cB,
      get_segment_labels results =
        some [(cL, labelHighValue), (cA, labelAtRisk), (cR, labelRecent), (cB, labelBulk)] ∧
      cL ∈ clustersOf results ∧ cA ∈ clustersOf results ∧
      cR ∈ clustersOf results ∧ cB ∈ clustersOf results ∧
      List.Nodup [cL, cA, cR, cB] ∧
      List.Nodup [labelHighValue, labelAtRisk, labelRecent, labelBulk] ∧
      (∀ c ∈ clustersOf results,
        clusterMean results (fun r => r.monetary) c ≤
          clusterMean results (fun r => r.monetary) cL) ∧
      (∀ c ∈ clustersOf results, c ≠ cL →
        clusterMean results (fun r => r.recency) c ≤
          clusterMean results (fun r => r.recency) cA) ∧
      (∀ c ∈ clustersOf results, c ≠ cL → c ≠ cA →
        clusterMean results (fun r => r.recency) cR ≤
          clusterMean results (fun r => r.recency) c) := by
  have hkeys := cluster_stats_keys results
  have hnd : ((cluster_stats results).map (fun s => s.cluster)).Nodup := by
    rw [hkeys]
    exact nodup_clustersOf results
  have hslen : (cluster_stats results).length = (clustersOf results).length := by
    calc (cluster_stats results).length
        = ((cluster_stats results).map (fun s => s.cluster)).length :=
          (List.length_map _ _).symm
      _ = (clustersOf results).length := by rw [hkeys]
  obtain ⟨loyal, hloyal⟩ :
      ∃ b, sortHeadDesc (fun s => s.monetary) (cluster_stats results) = some b := by
    cases hL : sortHeadDesc (fun s => s.monetary) (cluster_stats results) with
    | none =>
      have hnil := sortHeadDesc_eq_none.mp hL
      rw [hnil] at hslen
      simp at hslen
      omega
    | some b => exact ⟨b, rfl⟩
  obtain ⟨hLmem, hLmax⟩ := sortHeadDesc_spec hloyal
  set rem1 := (cluster_stats results).filter
    (fun s => decide (s.cluster ≠ loyal.cluster)) with hrem1def
  have hnd1 : (rem1.map (fun s => s.cluster)).Nodup := by
    rw [hrem1def]
    exact nodup_key_filter hnd _
  have hlen1 : (cluster_stats results).length = rem1.length + 1 := by
    rw [hrem1def]
    exact length_filter_ne_key hnd hLmem
  obtain ⟨atRisk, hatRisk⟩ : ∃ b, sortHeadDesc (fun s => s.recency) rem1 = some b := by
    cases hL : sortHeadDesc (fun s => s.recency) rem1 with
    | none =>
      have hnil := sortHeadDesc_eq_none.mp hL
      rw [hnil] at hlen1
      simp at hlen1
      omega
    | some b => exact ⟨b, rfl⟩
  obtain ⟨hAmem1, hAmax⟩ := sortHeadDesc_spec hatRisk
  have hAmem : atRisk ∈ cluster_stats results := by
    have hm := hAmem1
    rw [hrem1def] at hm
    exact (mem_filter_ne.mp hm).1
  have hAneL : atRisk.cluster ≠ loyal.cluster := by
    have hm := hAmem1
    rw [hrem1def] at hm
    exact (mem_filter_ne.mp hm).2
  set rem2 := rem1.filter (fun s => decide (s.cluster ≠ atRisk.cluster)) with hrem2def
  have hnd2 : (rem2.map (fun s => s.cluster)).Nodup := by
    rw [hrem2def]
    exact nodup_key_filter hnd1 _
  have hlen2 : rem1.length = rem2.length + 1 := by
    rw [hrem2def]
    exact length_filter_ne_key hnd1 hAmem1
  obtain ⟨recent, hrecent⟩ : ∃ b, sortHeadAsc (fun s => s.recency) rem2 = some b := by
    cases hL : sortHeadAsc (fun s => s.recency) rem2 with
    | none =>
      have hnil := sortHeadAsc_eq_none.mp hL
      rw [hnil] at hlen2
      simp at hlen2
      omega
    | some b => exact ⟨b, rfl⟩
  obtain ⟨hRmem2, hRmin⟩ := sortHeadAsc_spec hrecent
  have hRmem1 : recent ∈ rem1 := by
    have hm := hRmem2
    rw [hrem2def] at hm
    exact (mem_filter_ne.mp hm).1
  have hRneA : recent.cluster ≠ atRisk.cluster := by
    have hm := hRmem2
    rw [hrem2def] at hm
    exact (mem_filter_ne.mp hm).2
  have hRmem : recent ∈ cluster_stats results := by
    have hm := hRmem1
    rw [hrem1def] at hm
    exact (mem_filter_ne.mp hm).1
  have hRneL : recent.cluster ≠ loyal.cluster := by
    have hm := hRmem1
    rw [hrem1def] at hm
    exact (mem_filter_ne.mp hm).2
  set rem3 := rem2.filter (fun s => decide (s.cluster ≠ recent.cluster)) with hrem3def
  have hlen3 : rem2.length = rem3.length + 1 := by
    rw [hrem3def]
    exact length_filter_ne_key hnd2 hRmem2
  obtain ⟨bulk, rest, hbulk⟩ : ∃ b rest, rem3 = b :: rest := by
    cases hr3 : rem3 with
    | nil =>
      rw [hr3] at hlen3
      simp at hlen3
      omega
    | cons b rest => exact ⟨b, rest, rfl⟩
  have hBmem3 : bulk ∈ rem3 := by
    rw [hbulk]
    exact List.mem_cons_self _ _
  have hBmem2 : bulk ∈ rem2 := by
    have hm := hBmem3
    rw [hrem3def] at hm
    exact (mem_filter_ne.mp hm).1
  have hBneR : bulk.cluster ≠ recent.cluster := by
    have hm := hBmem3
    rw [hrem3def] at hm
    exact (mem_filter_ne.mp hm).2
  have hBmem1 : bulk ∈ rem1 := by
    have hm := hBmem2
    rw [hrem2def] at hm
    exact (mem_filter_ne.mp hm).1
  have hBneA : bulk.cluster ≠ atRisk.cluster := by
    have hm := hBmem2
    rw [hrem2def] at hm
    exact (mem_filter_ne.mp hm).2
  have hBmem : bulk ∈ cluster_stats results := by
    have hm := hBmem1
    rw [hrem1def] at hm
    exact (mem_filter_ne.mp hm).1
  have hBneL : bulk.cluster ≠ loyal.cluster := by
    have hm := hBmem1
    rw [hrem1def] at hm
    exact (mem_filter_ne.mp hm).2
  have heq : get_segment_labels results =
      some [(loyal.cluster, labelHighValue), (atRisk.cluster, labelAtRisk),
            (recent.cluster, labelRecent), (bulk.cluster, labelBulk)] := by
    simp only [get_segment_labels, hloyal]
    rw [← hrem1def]
    simp only [hatRisk]
    rw [← hrem2def]
    simp only [hrecent]
    rw [← hrem3def, hbulk]
    rfl
  refine ⟨loyal.cluster, atRisk.cluster, recent.cluster, bulk.cluster, heq,
    (mem_cluster_stats hLmem).1, (mem_cluster_stats hAmem).1,
    (mem_cluster_stats hRmem).1, (mem_cluster_stats hBmem).1, ?_, ?_, ?_, ?_, ?_⟩
  · have n1 : loyal.cluster ≠ atRisk.cluster := fun h => hAneL h.symm
    have n2 : loyal.cluster ≠ recent.cluster := fun h => hRneL h.symm
    have n3 : loyal.cluster ≠ bulk.cluster := fun h => hBneL h.symm
    have n4 : atRisk.cluster ≠ recent.cluster := fun h => hRneA h.symm
    have n5 : atRisk.cluster ≠ bulk.cluster := fun h => hBneA h.symm
    have n6 : recent.cluster ≠ bulk.cluster := fun h => hBneR h.symm
    simp [List.nodup_cons, n1, n2, n3, n4, n5, n6]
  · decide
  · intro c hc
    have hle := hLmax (segStat results c) (segStat_mem hc)
    have hself := (mem_cluster_stats hLmem).2
    have hstep : (segStat results c).monetary ≤ (segStat results loyal.cluster).monetary := by
      rw [← hself]
      exact hle
    exact hstep
  · intro c hc hcne
    have hmem1 : segStat results c ∈ rem1 := by
      rw [hrem1def]
      exact mem_filter_ne.mpr ⟨segStat_mem hc, hcne⟩
    have hle := hAmax (segStat results c) hmem1
    have hself := (mem_cluster_stats hAmem).2
    have hstep : (segStat results c).recency ≤ (segStat results atRisk.cluster).recency := by
      rw [← hself]
      exact hle
    exact hstep
  · intro c hc hcneL hcneA
    have hmem2 : segStat results c ∈ rem2 := by
      rw [hrem2def]
      refine mem_filter_ne.mpr ⟨?_, hcneA⟩
      rw [hrem1def]
      exact mem_filter_ne.mpr ⟨segStat_mem hc, hcneL⟩
    have hle := hRmin (segStat results c) hmem2
    have hself := (mem_cluster_stats hRmem).2
    have hstep : (segStat results recent.cluster).recency ≤ (segStat results c).recency := by
      rw [← hself]
      exact hle
    exact hstep

/-- A result table with four distinct clusters. -/
def sampleResults : List ResultRow :=
  [{ cluster := 0, monetary := 1, recency := 5, frequency := 1 },
   { cluster := 1, monetary := 10, recency := 1, frequency := 1 },
   { cluster := 2, monetary := 2, recency := 9, frequency := 1 },
   { cluster := 3, monetary := 3, recency := 0, frequency := 1 }]

theorem get_segment_labels_four_witness :
    4 ≤ (clustersOf sampleResults).length ∧
      (∃ cL cA cR cB,
        get_segment_labels sampleResults =
          some [(cL, labelHighValue), (cA, labelAtRisk), (cR, labelRecent), (cB, labelBulk)] ∧
        cL ∈ clustersOf sampleResults ∧ cA ∈ clustersOf sampleResults ∧
        cR ∈ clustersOf sampleResults ∧ cB ∈ clustersOf sampleResults ∧
        List.Nodup [cL, cA, cR, cB] ∧
        List.Nodup [labelHighValue, labelAtRisk, labelRecent, labelBulk] ∧
        (∀ c ∈ clustersOf sampleResults,
          clusterMean sampleResults (fun r => r.monetary) c ≤
            clusterMean sampleResults (fun r => r.monetary) cL) ∧
        (∀ c ∈ clustersOf sampleResults, c ≠ cL →
          clusterMean sampleResults (fun r => r.recency) c ≤
            clusterMean sampleResults (fun r => r.recency) cA) ∧
        (∀ c ∈ clustersOf sampleResults, c ≠ cL → c ≠ cA →
          clusterMean sampleResults (fun r => r.recency) cR ≤
            clusterMean sampleResults (fun r => r.recency) c)) :=
  ⟨by with_unfolding_all decide,
    get_segment_labels_four sampleResults (by with_unfolding_all decide)⟩

/-- A non-empty result table with only two distinct clusters. -/
def sampleResultsTwo : List ResultRow :=
  [{ cluster := 0, monetary := 1, recency := 5, frequency := 1 },
   { cluster := 1, monetary := 10, recency := 1, frequency := 1 }]

/-- Counterexample to claim C8: on a non-empty input with two distinct
clusters, `get_segment_labels` does not complete with a mapping — the
third ranking step calls `.iloc[0]` on an empty remaining pool, which
raises IndexError (modelled by `none`). Only the fourth step is
guarded by `if not remaining.empty`. -/
theorem get_segment_labels_two_counterexample :
    sampleResultsTwo ≠ [] ∧ (clustersOf sampleResultsTwo).length = 2 ∧
      get_segment_labels sampleResultsTwo = none := by
  with_unfolding_all decide

/-- Claim C8 amended: with fewer than 4 distinct clusters,
`get_segment_labels` completes only when exactly 3 are present — it
then returns the first three labels keyed by distinct clusters of the
input (absent clusters never appear as keys) — while with fewer than 3
distinct clusters the unguarded `.iloc[0]` on an empty remaining pool
fails (IndexError, modelled by `none`) instead of returning a
mapping. -/
theorem get_segment_labels_few (results : List ResultRow)
    (hlt : (clustersOf results).length < 4) :
    ((clustersOf results).length < 3 → get_segment_labels results = none) ∧
      ((clustersOf results).length = 3 →
        ∃ cL cA cR,
          get_segment_labels results =
            some [(cL, labelHighValue), (cA, labelAtRisk), (cR, labelRecent)] ∧
          cL ∈ clustersOf results ∧ cA ∈ clustersOf results ∧
          cR ∈ clustersOf results ∧ List.Nodup [cL, cA, cR]) := by
  have hkeys := cluster_stats_keys results
  have hnd : ((cluster_stats results).map (fun s => s.cluster)).Nodup := by
    rw [hkeys]
    exact nodup_clustersOf results
  have hslen : (cluster_stats results).length = (clustersOf results).length := by
    calc (cluster_stats results).length
        = ((cluster_stats results).map (fun s => s.cluster)).length :=
          (List.length_map _ _).symm
      _ = (clustersOf results).length := by rw [hkeys]
  constructor
  · intro h3
    cases hL : sortHeadDesc (fun s => s.monetary) (cluster_stats results) with
    | none => simp only [get_segment_labels, hL]
    | some loyal =>
      obtain ⟨hLmem, -⟩ := sortHeadDesc_spec hL
      have hlen1 : (cluster_stats results).length =
          ((cluster_stats results).filter
            (fun s => decide (s.cluster ≠ loyal.cluster))).length + 1 :=
        length_filter_ne_key hnd hLmem
      cases hA : sortHeadDesc (fun s => s.recency)
          ((cluster_stats results).filter (fun s => decide (s.cluster ≠ loyal.cluster))) with
      | none => simp only [get_segment_labels, hL, hA]
      | some atRisk =>
        obtain ⟨hAmem1, -⟩ := sortHeadDesc_spec hA
        have hnd1 := nodup_key_filter hnd (fun s => decide (s.cluster ≠ loyal.cluster))
        have hlen2 :
            ((cluster_stats results).filter
              (fun s => decide (s.cluster ≠ loyal.cluster))).length =
            (((cluster_stats results).filter
              (fun s => decide (s.cluster ≠ loyal.cluster))).filter
                (fun s => decide (s.cluster ≠ atRisk.cluster))).length + 1 :=
          length_filter_ne_key hnd1 hAmem1
        have hrem2nil : ((cluster_stats results).filter
            (fun s => decide (s.cluster ≠ loyal.cluster))).filter
              (fun s => decide (s.cluster ≠ atRisk.cluster)) = [] := by
          rw [← List.length_eq_zero]
          omega
        simp only [get_segment_labels, hL, hA, hrem2nil, sortHeadAsc]
  · intro h3
    obtain ⟨loyal, hloyal⟩ :
        ∃ b, sortHeadDesc (fun s => s.monetary) (cluster_stats results) = some b := by
      cases hL : sortHeadDesc (fun s => s.monetary) (cluster_stats results) with
      | none =>
        have hnil := sortHeadDesc_eq_none.mp hL
        rw [hnil] at hslen
        simp at hslen
        omega
      | some b => exact ⟨b, rfl⟩
    obtain ⟨hLmem, -⟩ := sortHeadDesc_spec hloyal
    set rem1 := (cluster_stats results).filter
      (fun s => decide (s.cluster ≠ loyal.cluster)) with hrem1def
    have hnd1 : (rem1.map (fun s => s.cluster)).Nodup := by
      rw [hrem1def]
      exact nodup_key_filter hnd _
    have hlen1 : (cluster_stats results).length = rem1.length + 1 := by
      rw [hrem1def]
      exact length_filter_ne_key hnd hLmem
    obtain ⟨atRisk, hatRisk⟩ : ∃ b, sortHeadDesc (fun s => s.recency) rem1 = some b := by
      cases hL : sortHeadDesc (fun s => s.recency) rem1 with
      | none =>
        have hnil := sortHeadDesc_eq_none.mp hL
        rw [hnil] at hlen1
        simp at hlen1
        omega
      | some b => exact ⟨b, rfl⟩
    obtain ⟨hAmem1, -⟩ := sortHeadDesc_spec hatRisk
    have hAmem : atRisk ∈ cluster_stats results := by
      have hm := hAmem1
      rw [hrem1def] at hm
      exact (mem_filter_ne.mp hm).1
    have hAneL : atRisk.cluster ≠ loyal.cluster := by
      have hm := hAmem1
      rw [hrem1def] at hm
      exact (mem_filter_ne.mp hm).2
    set rem2 := rem1.filter (fun s => decide (s.cluster ≠ atRisk.cluster)) with hrem2def
    have hnd2 : (rem2.map (fun s => s.cluster)).Nodup := by
      rw [hrem2def]
      exact nodup_key_filter hnd1 _
    have hlen2 : rem1.length = rem2.length + 1 := by
      rw [hrem2def]
      exact length_filter_ne_key hnd1 hAmem1
    obtain ⟨recent, hrecent⟩ : ∃ b, sortHeadAsc (fun s => s.recency) rem2 = some b := by
      cases hL : sortHeadAsc (fun s => s.recency) rem2 with
      | none =>
        have hnil := sortHeadAsc_eq_none.mp hL
        rw [hnil] at hlen2
        simp at hlen2
        omega
      | some b => exact ⟨b, rfl⟩
    obtain ⟨hRmem2, -⟩ := sortHeadAsc_spec hrecent
    have hRmem1 : recent ∈ rem1 := by
      have hm := hRmem2
      rw [hrem2def] at hm
      exact (mem_filter_ne.mp hm).1
    have hRneA : recent.cluster ≠ atRisk.cluster := by
      have hm := hRmem2
      rw [hrem2def] at hm
      exact (mem_filter_ne.mp hm).2
    have hRmem : recent ∈ cluster_stats results := by
      have hm := hRmem1
      rw [hrem1def] at hm
      exact (mem_filter_ne.mp hm).1
    have hRneL : recent.cluster ≠ loyal.cluster := by
      have hm := hRmem1
      rw [hrem1def] at hm
      exact (mem_filter_ne.mp hm).2
    set rem3 := rem2.filter (fun s => decide (s.cluster ≠ recent.cluster)) with hrem3def
    have hlen3 : rem2.length = rem3.length + 1 := by
      rw [hrem3def]
      exact length_filter_ne_key hnd2 hRmem2
    have hrem3nil : rem3 = [] := by
      rw [← List.length_eq_zero]
      omega
    have heq : get_segment_labels results =
        some [(loyal.cluster, labelHighValue), (atRisk.cluster, labelAtRisk),
              (recent.cluster, labelRecent)] := by
      simp only [get_segment_labels, hloyal]
      rw [← hrem1def]
      simp only [hatRisk]
      rw [← hrem2def]
      simp only [hrecent]
      rw [← hrem3def, hrem3nil]
    refine ⟨loyal.cluster, atRisk.cluster, recent.cluster, heq,
      (mem_cluster_stats hLmem).1, (mem_cluster_stats hAmem).1,
      (mem_cluster_stats hRmem).1, ?_⟩
    have n1 : loyal.cluster ≠ atRisk.cluster := fun h => hAneL h.symm
    have n2 : loyal.cluster ≠ recent.cluster := fun h => hRneL h.symm
    have n3 : atRisk.cluster ≠ recent.cluster := fun h => hRneA h.symm
    simp [List.nodup_cons, n1, n2, n3]

/-- A result table with exactly three distinct clusters. -/
def sampleResultsThree : List ResultRow :=
  [{ cluster := 0, monetary := 1, recency := 5, frequency := 1 },
   { cluster := 1, monetary := 10, recency := 1, frequency := 1 },
   { cluster := 2, monetary := 2, recency := 9, frequency := 1 }]

theorem get_segment_labels_few_witness :
    (clustersOf sampleResultsThree).length < 4 ∧
      (((clustersOf sampleResultsThree).length < 3 →
          get_segment_labels sampleResultsThree = none) ∧
        ((clustersOf sampleResultsThree).length = 3 →
          ∃ cL cA cR,
            get_segment_labels sampleResultsThree =
              some [(cL, labelHighValue), (cA, labelAtRisk), (cR, labelRecent)] ∧
            cL ∈ clustersOf sampleResultsThree ∧ cA ∈ clustersOf sampleResultsThree ∧
            cR ∈ clustersOf sampleResultsThree ∧ List.Nodup [cL, cA, cR])) :=
  ⟨by with_unfolding_all decide,
    get_segment_labels_few sampleResultsThree (by with_unfolding_all decide)⟩

/-!
Embedding of `BatchPredictor.predict` (inference/batch_predictor.py,
lines 21-43). The feature table is viewed as a pandas frame: an
ordered list of named columns (cells are `Option ℚ`, `none` = NaN).
The artifacts hold the fitted scaler and clusterer as opaque functions
together with the ordered feature schema loaded from
`feature_schema.json`.
-/

/-- A pandas DataFrame viewed as an ordered list of named columns. -/
abbrev Frame := List (String × List (Option ℚ))

/-- The column names of a frame, in order. -/
def frameCols (frame : Frame) : List String := frame.map Prod.fst

/-- Embedding of pandas column selection `df[cols]`
(`customer_features[self.expected_features]`, line 32): the selected
columns in the requested order, found by name; if any requested column
is absent, pandas raises `KeyError: "[...] not in index"` listing the
missing columns, modelled by the error branch. -/
def frameSelect (cols : List String) (frame : Frame) : Except (List String) Frame :=
  let missing := cols.filter (fun c => decide (c ∉ frameCols frame))
  if missing.isEmpty then
    .ok (cols.map (fun c =>
      (c, ((frame.find? (fun p => decide (p.1 = c))).map Prod.snd).getD [])))
  else
    .error missing

/-- The errors `predict` can surface. `keyError` is the pandas
KeyError that the column selection raises, carrying the missing
column names. `schemaMismatch` is the typed `SchemaMismatchError` of
the specification: it exists only as vocabulary here — nothing in the
code defines or raises such an error (claim C5). -/
inductive PredictError where
  | keyError (missing : List String)
  | schemaMismatch (missing : List String) (extra : List String)
deriving DecidableEq, Repr

/-- The loaded model artifacts: scaler and clusterer as opaque fitted
functions, plus the ordered feature schema of the training run. -/
structure ModelArtifacts where
  transform : Frame → Frame
  assign : Frame → List Int
  schema : List String

/-- A customer-feature row with its assigned cluster appended
(`customer_features["Cluster"] = ...`). -/
structure OutRow extends FeatureRow where
  cluster : Int
deriving DecidableEq, Repr

/-- The customer-feature table as a frame, columns in the order
`build_rfm_features` produces them. -/
def featuresFrame (fs : List FeatureRow) : Frame :=
  [(("CustomerID" : String), fs.map (fun f => some ((f.customerID : ℚ)))),
   (("Recency" : String), fs.map (fun f => some ((f.recency : ℚ)))),
   (("Frequency" : String), fs.map (fun f => some ((f.frequency : ℚ)))),
   (("Monetary" : String), fs.map (fun f => some f.monetary)),
   (("TotalQuantity" : String), fs.map (fun f => f.totalQuantity.map (fun q => (q : ℚ)))),
   (("UniqueProducts" : String), fs.map (fun f => f.uniqueProducts.map (fun u => (u : ℚ))))]

lemma frameCols_featuresFrame (fs : List FeatureRow) :
    frameCols (featuresFrame fs) =
      [("CustomerID" : String), "Recency", "Frequency", "Monetary",
       "TotalQuantity", "UniqueProducts"] := rfl

/-- The matrix `X` of `predict` (line 32): the feature table with the
schema's columns selected by name in schema order. -/
def predictX (art : ModelArtifacts) (raw : List Row) : Except (List String) Frame :=
  frameSelect art.schema (featuresFrame (build_rfm_features (clean_data raw)))

/-- Embedding of `BatchPredictor.predict`: clean, build features,
select the schema columns (`X`), scale, assign clusters, and append
the Cluster column positionally. -/
def predict (art : ModelArtifacts) (raw : List Row) : Except PredictError (List OutRow) :=
  let features := build_rfm_features (clean_data raw)
  match predictX art raw with
  | .error missing => .error (.keyError missing)
  | .ok X =>
    let scaled := art.transform X
    let clusters := art.assign scaled
    .ok (List.zipWith (fun f c => { toFeatureRow := f, cluster := c }) features clusters)

lemma find?_col_eq_of_perm {frame frame' : Frame} (hp : frame.Perm frame')
    (hnd : (frameCols frame).Nodup) (c : String) :
    frame.find? (fun p => decide (p.1 = c)) = frame'.find? (fun p => decide (p.1 = c)) := by
  by_cases hex : ∃ p ∈ frame, p.1 = c
  · obtain ⟨p, hpmem, hpc⟩ := hex
    have huniq : ∀ q ∈ frame, q.1 = c → q = p := by
      intro q hq hqc
      have hnd' : (frame.map Prod.fst).Nodup := hnd
      exact List.inj_on_of_nodup_map hnd' hq hpmem (by rw [hqc, hpc])
    have key : ∀ l : Frame, l.Perm frame → l.find? (fun p => decide (p.1 = c)) = some p := by
      intro l hl
      cases hf : l.find? (fun p => decide (p.1 = c)) with
      | none =>
        exfalso
        have hnone := List.find?_eq_none.mp hf p ((hl.mem_iff).mpr hpmem)
        simp [hpc] at hnone
      | some q =>
        have hq : q.1 = c := by simpa using List.find?_some hf
        have hqmem : q ∈ frame := (hl.mem_iff).mp (List.mem_of_find?_eq_some hf)
        rw [huniq q hqmem hq]
    rw [key frame (List.Perm.refl frame), key frame' hp.symm]
  · push_neg at hex
    have h1 : frame.find? (fun p => decide (p.1 = c)) = none :=
      List.find?_eq_none.mpr (fun x hx => by simpa using hex x hx)
    have h2 : frame'.find? (fun p => decide (p.1 = c)) = none :=
      List.find?_eq_none.mpr (fun x hx => by simpa using hex x ((hp.mem_iff).mpr hx))
    rw [h1, h2]

lemma frameSelect_ok (cols : List String) (frame : Frame)
    (hcov : ∀ c ∈ cols, c ∈ frameCols frame) :
    frameSelect cols frame = .ok (cols.map (fun c =>
      (c, ((frame.find? (fun p => decide (p.1 = c))).map Prod.snd).getD []))) := by
  have hmiss : cols.filter (fun c => decide (c ∉ frameCols frame)) = [] := by
    rw [List.filter_eq_nil_iff]
    intro c hc
    simp [hcov c hc]
  simp only [frameSelect]
  rw [hmiss]
  rfl

/-- Claim C3: whenever the feature table contains every schema field,
the matrix `X` that `predict` passes to the scaler exists, its columns
are exactly the schema's fields in the schema's order, and it is
selected by column name: any reordering (permutation) of the feature
table's columns yields the very same `X`. -/
theorem predict_schema_order (art : ModelArtifacts) (raw : List Row)
    (hcov : ∀ c ∈ art.schema,
      c ∈ frameCols (featuresFrame (build_rfm_features (clean_data raw)))) :
    ∃ X, predictX art raw = .ok X ∧ frameCols X = art.schema ∧
      ∀ G : Frame, (featuresFrame (build_rfm_features (clean_data raw))).Perm G →
        frameSelect art.schema G = .ok X := by
  have hndF : (frameCols (featuresFrame (build_rfm_features (clean_data raw)))).Nodup := by
    rw [frameCols_featuresFrame]
    decide
  refine ⟨_, frameSelect_ok art.schema _ hcov, ?_, ?_⟩
  · show (art.schema.map (fun c =>
        (c, (((featuresFrame (build_rfm_features (clean_data raw))).find?
          (fun p => decide (p.1 = c))).map Prod.snd).getD []))).map Prod.fst = art.schema
    rw [List.map_map]
    have hcomp : (Prod.fst ∘ fun c : String =>
        (c, (((featuresFrame (build_rfm_features (clean_data raw))).find?
          (fun p => decide (p.1 = c))).map Prod.snd).getD ([] : List (Option ℚ)))) =
        fun c => c := rfl
    rw [hcomp, List.map_id']
  · intro G hG
    have hcovG : ∀ c ∈ art.schema, c ∈ frameCols G := by
      intro c hc
      exact ((hG.map Prod.fst).mem_iff).mp (hcov c hc)
    rw [frameSelect_ok art.schema G hcovG]
    congr 1
    apply List.map_congr_left
    intro c hc
    rw [find?_col_eq_of_perm hG hndF c]

/-- Artifacts whose schema matches the training pipeline
(`feature_cols` in pipeline/train_model.py). -/
def sampleArtifacts : ModelArtifacts :=
  { transform := fun X => X,
    assign := fun _ => [0],
    schema := [("Recency" : String), "Frequency", "Monetary", "TotalQuantity",
               "UniqueProducts"] }

theorem predict_schema_order_witness :
    (∀ c ∈ sampleArtifacts.schema,
        c ∈ frameCols (featuresFrame (build_rfm_features (clean_data [sampleRow1])))) ∧
      (∃ X, predictX sampleArtifacts [sampleRow1] = .ok X ∧
        frameCols X = sampleArtifacts.schema ∧
        ∀ G : Frame,
          (featuresFrame (build_rfm_features (clean_data [sampleRow1]))).Perm G →
            frameSelect sampleArtifacts.schema G = .ok X) :=
  ⟨by with_unfolding_all decide,
    predict_schema_order sampleArtifacts [sampleRow1] (by with_unfolding_all decide)⟩

/-- Artifacts whose schema demands a feature the pipeline never
produces, so the feature table lacks it. -/
def sampleArtifactsBad : ModelArtifacts :=
  { transform := fun X => X,
    assign := fun _ => [0],
    schema := [("Recency" : String), "Frequency", "Monetary", "TotalQuantity",
               "UniqueProducts", "AvgBasketSize"] }

/-- Counterexample to claim C5: on an input whose feature table lacks
a schema field, `predict` fails with the pandas KeyError listing the
missing columns — it does not raise any `SchemaMismatchError`, a type
that exists nowhere in the code. -/
theorem predict_keyerror_counterexample :
    predict sampleArtifactsBad [sampleRow1] =
        .error (.keyError [("AvgBasketSize" : String)]) ∧
      ∀ m e, predict sampleArtifactsBad [sampleRow1] ≠
        .error (.schemaMismatch m e) := by
  have hval : predict sampleArtifactsBad [sampleRow1] =
      .error (.keyError [("AvgBasketSize" : String)]) := by
    with_unfolding_all rfl
  refine ⟨hval, ?_⟩
  intro m e h
  rw [hval] at h
  simp at h

/-- Claim C5 amended: when the feature table does not contain every
schema field, `predict` fails with the pandas KeyError naming exactly
the missing fields, and no result table is returned; the failure is
this untyped KeyError, not a typed SchemaMismatchError (no such type
exists in the code). -/
theorem predict_missing_schema_fields (art : ModelArtifacts) (raw : List Row)
    (hmiss : art.schema.filter (fun c => decide
      (c ∉ frameCols (featuresFrame (build_rfm_features (clean_data raw))))) ≠ []) :
    predict art raw = .error (.keyError (art.schema.filter (fun c => decide
        (c ∉ frameCols (featuresFrame (build_rfm_features (clean_data raw))))))) ∧
      ∀ out, predict art raw ≠ .ok out := by
  have hsel : predictX art raw = .error (art.schema.filter (fun c => decide
      (c ∉ frameCols (featuresFrame (build_rfm_features (clean_data raw)))))) := by
    simp only [predictX, frameSelect]
    rw [if_neg (fun htrue => hmiss (List.isEmpty_iff.mp htrue))]
  constructor
  · simp only [predict]
    rw [hsel]
  · intro out hok
    simp only [predict] at hok
    rw [hsel] at hok
    exact Except.noConfusion hok

theorem predict_missing_schema_fields_witness :
    sampleArtifactsBad.schema.filter (fun c => decide
        (c ∉ frameCols (featuresFrame (build_rfm_features (clean_data [sampleRow1]))))) ≠ [] ∧
      (predict sampleArtifactsBad [sampleRow1] =
          .error (.keyError (sampleArtifactsBad.schema.filter (fun c => decide
            (c ∉ frameCols (featuresFrame (build_rfm_features (clean_data [sampleRow1]))))))) ∧
        ∀ out, predict sampleArtifactsBad [sampleRow1] ≠ .ok out) :=
  ⟨by with_unfolding_all decide,
    predict_missing_schema_fields sampleArtifactsBad [sampleRow1]
      (by with_unfolding_all decide)⟩
